import Mathlib

/-!
Verification of the DeviseOS hierarchical knowledge store and tab-session
subsystem, shallowly embedded from the TypeScript source
(`src/contexts/TabContext.tsx`, `src/components/PageLinking.tsx`,
`src/contexts/NotebookContext.tsx`).  Timestamps (JS `Date`) are modelled as
natural numbers (milliseconds), JS strings as `String`, optional record
fields as `Option`.
-/

namespace Devise

/-- `Tab.type` in `TabContext.tsx`: `'page' | 'dashboard' | 'search' | 'settings'`. -/
inductive TabType where
  | page
  | dashboard
  | search
  | settings
deriving DecidableEq, Repr

/-- `Tab.content` in `TabContext.tsx`: `{ pageId?: string; page?: Page; route?: string }`.
The cached `page` snapshot is omitted: no tab operation in the source reads it
(only `pageId` is consulted, by the dedup check of `openTab`). -/
structure TabContent where
  pageId : Option String := none
  route : Option String := none
deriving DecidableEq, Repr

/-- The `Tab` record of `TabContext.tsx`. -/
structure Tab where
  id : String
  title : String
  type : TabType
  content : TabContent
  hasUnsavedChanges : Bool
  isActive : Bool
  lastAccessed : Nat
deriving DecidableEq, Repr

/-- The argument of `openTab`: `Omit<Tab, 'id' | 'isActive' | 'lastAccessed'>`. -/
structure TabData where
  title : String
  type : TabType
  content : TabContent
  hasUnsavedChanges : Bool
deriving DecidableEq, Repr

/-- A value stored under `localStorage['deviseos-tabs']`.  `saveTabs` writes a
well-formed `session` payload; `malformed` stands for any stored string on
which `JSON.parse` or the subsequent field accesses / `savedTabs.map` of
`loadTabs` throw. -/
inductive StoredValue where
  | malformed (raw : String)
  | session (tabs : List Tab) (activeTabId : Option String)
deriving DecidableEq, Repr

/-- The state owned by `TabProvider`: the `tabs` and `activeTabId` React state
plus the `localStorage` slot used by `saveTabs` / `loadTabs`
(`none` = key absent). -/
structure SessionState where
  tabs : List Tab
  activeTabId : Option String
  storage : Option StoredValue
deriving DecidableEq, Repr

/-- The initial `TabProvider` state: `useState<Tab[]>([])`,
`useState<string | null>(null)`, and no saved session. -/
def initialState : SessionState := { tabs := [], activeTabId := none, storage := none }

/-- `MAX_TABS = 20` in `TabContext.tsx`. -/
def MAX_TABS : Nat := 20

/-- JS truthiness of an optional string, as tested by
`if (tabData.type === 'page' && tabData.content.pageId)`: `undefined` and the
empty string are falsy. -/
def truthyStr : Option String → Bool
  | none => false
  | some s => s ≠ ""

/-- `switchToTab` from `TabContext.tsx`: sets `isActive` to `tab.id === tabId`
on every tab, refreshes `lastAccessed` of the target, and sets `activeTabId`.
`now` models the `new Date()` taken inside the updater. -/
def switchToTab (s : SessionState) (tabId : String) (now : Nat) : SessionState :=
  { s with
    tabs := s.tabs.map fun t =>
      { t with
        isActive := t.id = tabId
        lastAccessed := if t.id = tabId then now else t.lastAccessed }
    activeTabId := some tabId }

/-- Helper for the in-place mutation `nextTab.isActive = true` performed by
`closeTab` on the element of `newTabs` at `nextIndex`. -/
def activateAt : List Tab → Nat → List Tab
  | [], _ => []
  | t :: ts, 0 => { t with isActive := true } :: ts
  | t :: ts, n + 1 => t :: activateAt ts n

/-- `closeTab` from `TabContext.tsx`.  `findIndex` / `-1` is modelled with
`List.findIdx?`; `prev.filter(tab => tab.id !== tabId)` removes every tab with
the closed id; when the closed tab was active and tabs remain, the tab at
`nextIndex = tabIndex < newTabs.length ? tabIndex : tabIndex - 1` is activated. -/
def closeTab (s : SessionState) (tabId : String) : SessionState :=
  match s.tabs.findIdx? (fun t => t.id = tabId) with
  | none => s
  | some tabIndex =>
    let newTabs := s.tabs.filter (fun t => ¬ t.id = tabId)
    if ((s.tabs.get? tabIndex).map (·.isActive)).getD false ∧ newTabs.length > 0 then
      let nextIndex := if tabIndex < newTabs.length then tabIndex else tabIndex - 1
      { s with
        tabs := activateAt newTabs nextIndex
        activeTabId := (newTabs.get? nextIndex).map (·.id) }
    else if newTabs.length = 0 then
      { s with tabs := newTabs, activeTabId := none }
    else
      { s with tabs := newTabs }

/-- `closeAllTabs` from `TabContext.tsx`. -/
def closeAllTabs (s : SessionState) : SessionState :=
  { s with tabs := [], activeTabId := none }

/-- `closeOtherTabs` from `TabContext.tsx`.  Note that `setActiveTabId(tabId)`
runs even when `tabId` matches no tab and the list is left unchanged. -/
def closeOtherTabs (s : SessionState) (tabId : String) : SessionState :=
  match s.tabs.find? (fun t => t.id = tabId) with
  | none => { s with activeTabId := some tabId }
  | some tabToKeep => { s with tabs := [{ tabToKeep with isActive := true }], activeTabId := some tabId }

/-- The `tabs.reduce((oldest, current) => current.lastAccessed < oldest.lastAccessed
? current : oldest)` scan of `openTab`: left fold keeping the first tab with
the strictly smallest `lastAccessed`. -/
def oldestFold : Tab → List Tab → Tab
  | acc, [] => acc
  | acc, t :: ts => oldestFold (if t.lastAccessed < acc.lastAccessed then t else acc) ts

/-- The tab built by `openTab` from its argument:
`{ ...tabData, id: newTabId, isActive: true, lastAccessed: new Date() }`. -/
def mkNewTab (tabData : TabData) (newTabId : String) (now : Nat) : Tab :=
  { id := newTabId
    title := tabData.title
    type := tabData.type
    content := tabData.content
    hasUnsavedChanges := tabData.hasUnsavedChanges
    isActive := true
    lastAccessed := now }

/-- The tab (if any) that the dedup check of `openTab` finds:
`tabs.find(tab => tab.type === 'page' && tab.content.pageId === tabData.content.pageId)`,
guarded by `tabData.type === 'page' && tabData.content.pageId`. -/
def dedupTarget (s : SessionState) (tabData : TabData) : Option Tab :=
  if tabData.type = TabType.page ∧ truthyStr tabData.content.pageId then
    s.tabs.find? (fun t => t.type = TabType.page ∧ t.content.pageId = tabData.content.pageId)
  else
    none

/-- `openTab` from `TabContext.tsx`, returning the updated state and the
returned tab id.  On a dedup hit it is `switchToTab` on the existing tab.
Otherwise, at `tabs.length >= MAX_TABS` it first runs `closeTab` on the
oldest tab; the two queued functional `setTabs` updates compose sequentially,
so the appended update maps `isActive := false` over the post-close list and
appends the new active tab.  `newTabId` models `generateTabId()` and `now`
the `new Date()` calls. -/
def openTab (s : SessionState) (tabData : TabData) (newTabId : String) (now : Nat) :
    SessionState × String :=
  match dedupTarget s tabData with
  | some existingTab => (switchToTab s existingTab.id now, existingTab.id)
  | none =>
    let s1 :=
      if s.tabs.length ≥ MAX_TABS then
        match s.tabs with
        | [] => s
        | t :: ts => closeTab s (oldestFold t ts).id
      else s
    let newTab := mkNewTab tabData newTabId now
    ({ s1 with
        tabs := (s1.tabs.map fun t => { t with isActive := false }) ++ [newTab]
        activeTabId := some newTabId },
     newTabId)

/-- `saveTabs` from `TabContext.tsx`: serializes the tab list and active id to
`localStorage` (`Date` ↔ ISO-string round trip is the identity on the
modelled timestamps; `JSON.stringify`/`JSON.parse` of the record is
structural). -/
def saveTabs (s : SessionState) : SessionState :=
  { s with storage := some (StoredValue.session s.tabs s.activeTabId) }

/-- The `try` body of `loadTabs`: reads the stored value; `.ok none` models
the `if (saved)` guard failing (key absent), `.error` models `JSON.parse`,
the destructuring, or `savedTabs.map` throwing on a malformed payload. -/
def loadTabsTry : Option StoredValue → Except String (Option (List Tab × Option String))
  | none => Except.ok none
  | some (StoredValue.malformed _) => Except.error "Failed to load tabs"
  | some (StoredValue.session ts a) => Except.ok (some (ts, a))

/-- `loadTabs` from `TabContext.tsx`: the `try`/`catch` wrapper around
`loadTabsTry`; on any failure the error is logged (`console.error`) and the
state is left unchanged. -/
def loadTabs (s : SessionState) : SessionState :=
  match loadTabsTry s.storage with
  | Except.error _ => s
  | Except.ok none => s
  | Except.ok (some (ts, a)) => { s with tabs := ts, activeTabId := a }

/-- JS `Array.prototype.splice(start, 1)` on an array of tabs: returns the
removed element (`undefined`, i.e. `none`, when `start` is out of range) and
the remaining array. -/
def spliceOut (l : List Tab) (i : Nat) : Option Tab × List Tab :=
  match l.get? i with
  | some x => (some x, l.eraseIdx i)
  | none => (none, l)

/-- JS `Array.prototype.splice(start, 0, x)`: inserts `x` at position
`start` (clamped to the array length). -/
def spliceIn (l : List (Option Tab)) (i : Nat) (x : Option Tab) : List (Option Tab) :=
  l.take i ++ [x] ++ l.drop i

/-- `reorderTabs` from `TabContext.tsx`, with full JS `splice` semantics:
`const [movedTab] = newTabs.splice(fromIndex, 1); newTabs.splice(toIndex, 0, movedTab)`.
When `fromIndex` is out of range, `movedTab` is `undefined` and is still
inserted, so the result may contain a `none` entry. -/
def reorderTabs (tabs : List Tab) (fromIndex toIndex : Nat) : List (Option Tab) :=
  let r := spliceOut tabs fromIndex
  spliceIn (r.2.map some) toIndex r.1

/-- The in-range behaviour of `reorderTabs` as a plain tab-list operation:
remove the tab at `fromIndex` and re-insert it at `toIndex`. -/
def moveTab (tabs : List Tab) (fromIndex toIndex : Nat) : List Tab :=
  match tabs.get? fromIndex with
  | some x => (tabs.eraseIdx fromIndex).take toIndex ++ [x] ++ (tabs.eraseIdx fromIndex).drop toIndex
  | none => tabs

/-- `reorderTabs` lifted to the provider state (`setTabs` only; `activeTabId`
is untouched), for in-range `fromIndex`. -/
def reorderState (s : SessionState) (fromIndex toIndex : Nat) : SessionState :=
  { s with tabs := moveTab s.tabs fromIndex toIndex }

/-- Number of tabs with `isActive = true`. -/
def activeCount (tabs : List Tab) : Nat := tabs.countP (·.isActive)

/-- One SessionManager command, in the operation vocabulary of the claims:
`openTab`, `closeTab`, `closeAllTabs`, `closeOtherTabs`, `switchToTab`,
`reorderTabs`, `loadTabs` (and `saveTabs`, which only they make `loadTabs`
restore anything).  `generateTabId` builds ids from `Date.now()` plus a
random suffix, commented "Generate unique tab ID" in the source, so an open
step carries a freshness hypothesis.  Per the spec's tab state machine,
`switch_to` is applied to an open tab, so a switch step requires the target
id to be present; a reorder step uses an in-range `fromIndex` (an
out-of-range one makes the JS `splice` insert `undefined`, leaving the array
without a well-typed tab list, see `reorderTabs`). -/
inductive Step : SessionState → SessionState → Prop where
  | openT (s : SessionState) (td : TabData) (newId : String) (now : Nat)
      (hfresh : newId ∉ s.tabs.map (·.id)) : Step s (openTab s td newId now).1
  | closeT (s : SessionState) (tabId : String) : Step s (closeTab s tabId)
  | closeAllT (s : SessionState) : Step s (closeAllTabs s)
  | closeOthersT (s : SessionState) (tabId : String) : Step s (closeOtherTabs s tabId)
  | switchT (s : SessionState) (tabId : String) (now : Nat)
      (hmem : tabId ∈ s.tabs.map (·.id)) : Step s (switchToTab s tabId now)
  | reorderT (s : SessionState) (i j : Nat) (hi : i < s.tabs.length) :
      Step s (reorderState s i j)
  | saveT (s : SessionState) : Step s (saveTabs s)
  | loadT (s : SessionState) : Step s (loadTabs s)

/-- States reachable from the initial provider state by SessionManager
commands. -/
inductive Reachable : SessionState → Prop where
  | init : Reachable initialState
  | step {s s' : SessionState} : Reachable s → Step s s' → Reachable s'

/-- Well-formedness of a tab list: distinct ids, and exactly one active tab
when non-empty, none when empty. -/
def TabsOK (tabs : List Tab) : Prop :=
  (tabs.map (·.id)).Nodup ∧ activeCount tabs = (if tabs.isEmpty then 0 else 1)

/-- Well-formedness of the whole session state: the live tab list is
well-formed and so is any saved session payload. -/
def StateOK (s : SessionState) : Prop :=
  TabsOK s.tabs ∧ ∀ ts a, s.storage = some (StoredValue.session ts a) → TabsOK ts

/-- The effect of `deletePage` (`NotebookContext.tsx`) on the tab-session
state: the function deletes the page through the backend and clears
`currentPage`, but touches neither the `TabContext` state nor the saved
session, so its projection onto `SessionState` is the identity. -/
def deletePageSessionEffect (s : SessionState) (_pageId : String) : SessionState := s

/-- A page tab bound to page `p1`, used in concrete instances. -/
def tabP1 : Tab :=
  { id := "t1", title := "Alpha", type := TabType.page, content := { pageId := some "p1" },
    hasUnsavedChanges := false, isActive := true, lastAccessed := 5 }

/-- A page tab bound to page `p2`, used in concrete instances. -/
def tabP2 : Tab :=
  { id := "t2", title := "Beta", type := TabType.page, content := { pageId := some "p2" },
    hasUnsavedChanges := false, isActive := false, lastAccessed := 3 }

/-- A dashboard tab on route `/`, used in concrete instances. -/
def tabDash : Tab :=
  { id := "d1", title := "Dashboard", type := TabType.dashboard, content := { route := some "/" },
    hasUnsavedChanges := true, isActive := false, lastAccessed := 7 }

/-- A three-tab session (`t1` active), used in concrete instances. -/
def state3 : SessionState :=
  { tabs := [tabP1, tabP2, tabDash], activeTabId := some "t1", storage := none }

/-- Claim C4, amended part: `saveTabs` followed by `loadTabs` reproduces
exactly the same ordered tab list and the same active tab id — tabs bound to
since-deleted pages included, because `loadTabs` performs no validation
against the hierarchy. -/
theorem saveTabs_loadTabs_roundtrip (s : SessionState) :
    (loadTabs (saveTabs s)).tabs = s.tabs ∧
    (loadTabs (saveTabs s)).activeTabId = s.activeTabId :=
  ⟨rfl, rfl⟩

/-- Claim C4, counterexample: persist a session whose only tab is bound to
page `p1`, delete `p1`, restore.  The claim says the tab is absent from the
restored list; in fact the restored list still contains a tab bound to `p1`
(and it is the whole restored list). -/
theorem c4_deleted_page_tab_survives_restore :
    (loadTabs (deletePageSessionEffect
        (saveTabs { tabs := [tabP1], activeTabId := some "t1", storage := none }) "p1")).tabs.filter
      (fun t => t.content.pageId = some "p1") = [tabP1] := by
  decide

/-- Claim C9: `loadTabs` never propagates a failure.  The body that can throw
(`loadTabsTry`: `JSON.parse`, destructuring, `savedTabs.map`) is wrapped in
`try`/`catch`; on a missing key nothing is restored, on a malformed payload
the inner computation fails but `loadTabs` completes with the state
unchanged (the error is only logged), and on a well-formed payload the saved
tabs and active id are restored. -/
theorem loadTabs_never_raises (s : SessionState) :
    (s.storage = none → loadTabs s = s) ∧
    (∀ raw, s.storage = some (StoredValue.malformed raw) →
      loadTabsTry s.storage = Except.error "Failed to load tabs" ∧ loadTabs s = s) ∧
    (∀ ts a, s.storage = some (StoredValue.session ts a) →
      loadTabs s = { s with tabs := ts, activeTabId := a }) := by
  refine ⟨fun h => ?_, fun raw h => ?_, fun ts a h => ?_⟩ <;>
    simp [loadTabs, loadTabsTry, h]

/-- Witness for C9 at a concrete corrupt payload. -/
theorem loadTabs_never_raises_witness :
    loadTabsTry (SessionState.storage
        { tabs := [], activeTabId := none,
          storage := some (StoredValue.malformed "not json") }) =
      Except.error "Failed to load tabs" ∧
    loadTabs { tabs := [], activeTabId := none, storage := some (StoredValue.malformed "not json") } =
      { tabs := [], activeTabId := none, storage := some (StoredValue.malformed "not json") } :=
  (loadTabs_never_raises _).2.1 "not json" rfl

/-- Claim C10: the dedup check of `openTab` only fires for page-kind
descriptors, so a dashboard/search/settings descriptor always appends a new
tab carrying the fresh generated id and makes it active, even when a tab of
the same kind and route is already open; under capacity the tab count grows
by one. -/
theorem openTab_fixed_view_always_new (s : SessionState) (td : TabData) (newId : String)
    (now : Nat) (htype : td.type ≠ TabType.page) :
    (openTab s td newId now).2 = newId ∧
    (openTab s td newId now).1.activeTabId = some newId ∧
    (openTab s td newId now).1.tabs.getLast? = some (mkNewTab td newId now) ∧
    (mkNewTab td newId now).isActive = true ∧
    (s.tabs.length < MAX_TABS → (openTab s td newId now).1.tabs.length = s.tabs.length + 1) := by
  have hd : dedupTarget s td = none := by
    unfold dedupTarget
    rw [if_neg]
    intro hc
    exact htype hc.1
  refine ⟨by simp [openTab, hd], by simp [openTab, hd],
    by simp [openTab, hd, List.getLast?_concat], rfl, fun hlt => ?_⟩
  have hge : ¬ s.tabs.length ≥ MAX_TABS := by omega
  simp [openTab, hd, hge]

/-- Witness for C10: opening a second dashboard on route `/` while one is
already open appends a fresh active tab. -/
theorem openTab_fixed_view_always_new_witness :
    (openTab { tabs := [tabDash], activeTabId := some "d1", storage := none }
        { title := "Dashboard", type := TabType.dashboard, content := { route := some "/" },
          hasUnsavedChanges := false } "d2" 9).2 = "d2" ∧
    (openTab { tabs := [tabDash], activeTabId := some "d1", storage := none }
        { title := "Dashboard", type := TabType.dashboard, content := { route := some "/" },
          hasUnsavedChanges := false } "d2" 9).1.tabs.length = 2 := by
  have h := openTab_fixed_view_always_new
    { tabs := [tabDash], activeTabId := some "d1", storage := none }
    { title := "Dashboard", type := TabType.dashboard, content := { route := some "/" },
      hasUnsavedChanges := false } "d2" 9 (by decide)
  exact ⟨h.1, h.2.2.2.2 (by decide)⟩

/-- Claim C2: opening a page descriptor whose page id `P` (a page id is a
non-empty string) is already bound by some open page tab returns the id of
that existing tab, makes it the active tab, leaves the tab count unchanged,
and changes no tab's binding, so no duplicate tab bound to `P` is created. -/
theorem openTab_page_dedup (s : SessionState) (td : TabData) (newId : String) (now : Nat)
    (P : String) (e : Tab)
    (htype : td.type = TabType.page)
    (hpid : td.content.pageId = some P)
    (hP : P ≠ "")
    (hfind : s.tabs.find? (fun t => t.type = TabType.page ∧ t.content.pageId = some P) = some e) :
    (openTab s td newId now).2 = e.id ∧
    (openTab s td newId now).1.tabs.length = s.tabs.length ∧
    (openTab s td newId now).1.activeTabId = some e.id ∧
    (∀ u ∈ (openTab s td newId now).1.tabs, u.isActive = true ↔ u.id = e.id) ∧
    (openTab s td newId now).1.tabs.map (fun t => (t.id, t.type, t.content)) =
      s.tabs.map (fun t => (t.id, t.type, t.content)) := by
  have hd : dedupTarget s td = some e := by
    unfold dedupTarget
    rw [if_pos ⟨htype, by simp [truthyStr, hpid, hP]⟩, hpid, hfind]
  refine ⟨by simp [openTab, hd], by simp [openTab, hd, switchToTab],
    by simp [openTab, hd, switchToTab], ?_, ?_⟩
  · intro u hu
    simp only [openTab, hd, switchToTab, List.mem_map] at hu
    obtain ⟨t, _, rfl⟩ := hu
    simp
  · simp only [openTab, hd, switchToTab, List.map_map]
    exact List.map_congr_left fun t _ => rfl

/-- Witness for C2: reopening page `p2` while a tab bound to `p2` is open. -/
theorem openTab_page_dedup_witness :
    (openTab state3
      { title := "Beta again", type := TabType.page, content := { pageId := some "p2" },
        hasUnsavedChanges := false } "t9" 50).2 = "t2" ∧
    (openTab state3
      { title := "Beta again", type := TabType.page, content := { pageId := some "p2" },
        hasUnsavedChanges := false } "t9" 50).1.tabs.length = 3 := by
  have h := openTab_page_dedup state3
    { title := "Beta again", type := TabType.page, content := { pageId := some "p2" },
      hasUnsavedChanges := false } "t9" 50 "p2" tabP2 rfl rfl (by decide) (by decide)
  exact ⟨h.1, h.2.1⟩

/-- `moveTab` permutes the list (identity when `fromIndex` is out of range). -/
theorem moveTab_perm (l : List Tab) (fromIndex toIndex : Nat) :
    (moveTab l fromIndex toIndex).Perm l := by
  rcases hx : l.get? fromIndex with _ | x
  · rw [moveTab, hx]
  · have hxe : l[fromIndex]? = some x := by rw [← List.get?_eq_getElem?]; exact hx
    have h : fromIndex < l.length := by
      by_contra hc
      rw [List.getElem?_eq_none (by omega)] at hxe
      cases hxe
    rw [moveTab, hx]
    have h1 : ((l.eraseIdx fromIndex).take toIndex ++ [x] ++
        (l.eraseIdx fromIndex).drop toIndex).Perm (x :: l.eraseIdx fromIndex) := by
      have := @List.perm_middle _ x ((l.eraseIdx fromIndex).take toIndex)
        ((l.eraseIdx fromIndex).drop toIndex)
      simpa [List.take_append_drop] using this
    have h2 : (x :: l.eraseIdx fromIndex).Perm l := by
      conv_rhs => rw [← List.take_append_drop fromIndex l]
      rw [List.eraseIdx_eq_take_drop_succ]
      have hdrop : l.drop fromIndex = x :: l.drop (fromIndex + 1) := by
        rw [List.drop_eq_getElem_cons h]
        congr 1
        rw [List.getElem?_eq_getElem h] at hxe
        exact Option.some_injective _ hxe
      rw [hdrop]
      exact List.perm_middle.symm
    exact h1.trans h2

/-- Claim C7: for an index `fromIndex` of the tab list and any `toIndex`,
`reorderTabs` only repositions: it is the pure move of the tab at
`fromIndex` to position `toIndex`; the resulting list is a permutation of
the original (so set membership, every tab's active flag and unsaved-changes
flag are untouched) and `activeTabId` is unchanged. -/
theorem reorderTabs_frame (s : SessionState) (fromIndex toIndex : Nat)
    (h : fromIndex < s.tabs.length) :
    reorderTabs s.tabs fromIndex toIndex =
      ((reorderState s fromIndex toIndex).tabs).map some ∧
    (reorderState s fromIndex toIndex).tabs.Perm s.tabs ∧
    (reorderState s fromIndex toIndex).activeTabId = s.activeTabId ∧
    (∀ u, u ∈ (reorderState s fromIndex toIndex).tabs ↔ u ∈ s.tabs) := by
  obtain ⟨x, hxe⟩ : ∃ x, s.tabs[fromIndex]? = some x :=
    ⟨s.tabs[fromIndex], List.getElem?_eq_getElem h⟩
  have hx : s.tabs.get? fromIndex = some x := by
    rw [List.get?_eq_getElem?]
    exact hxe
  have hperm : (moveTab s.tabs fromIndex toIndex).Perm s.tabs := moveTab_perm _ _ _
  refine ⟨?_, hperm, rfl, fun u => hperm.mem_iff⟩
  simp [reorderTabs, spliceOut, spliceIn, hx, hxe, reorderState, moveTab, List.map_append]

/-- Witness for C7: moving the first of three tabs to the end. -/
theorem reorderTabs_frame_witness :
    reorderTabs state3.tabs 0 2 = ((reorderState state3 0 2).tabs).map some ∧
    (reorderState state3 0 2).tabs.Perm state3.tabs ∧
    (reorderState state3 0 2).activeTabId = state3.activeTabId :=
  ⟨(reorderTabs_frame state3 0 2 (by decide)).1,
   (reorderTabs_frame state3 0 2 (by decide)).2.1,
   (reorderTabs_frame state3 0 2 (by decide)).2.2.1⟩

/-- `findIdx?` misses a list on which the predicate is everywhere false. -/
theorem findIdx?_eq_none_of_all {α : Type} (p : α → Bool) (l : List α) :
    ∀ start : Nat, (∀ u ∈ l, p u = false) → l.findIdx? p start = none := by
  induction l with
  | nil => intro start _; rfl
  | cons a l ih =>
    intro start h
    rw [List.findIdx?_cons, if_neg (by simp [h a (List.mem_cons_self a l)])]
    exact ih (start + 1) fun u hu => h u (List.mem_cons_of_mem a hu)

/-- `findIdx?` finds the first hit: with the predicate false on `l₁` and true
at `t`, the result is position `l₁.length` (shifted by the accumulator). -/
theorem findIdx?_append_first {α : Type} (p : α → Bool) (l₁ : List α) (t : α) (l₂ : List α) :
    ∀ start : Nat, (∀ u ∈ l₁, p u = false) → p t = true →
      (l₁ ++ t :: l₂).findIdx? p start = some (start + l₁.length) := by
  induction l₁ with
  | nil => intro start _ ht; simp [List.findIdx?_cons, ht]
  | cons a l ih =>
    intro start h ht
    rw [List.cons_append, List.findIdx?_cons, if_neg (by simp [h a (List.mem_cons_self a l)])]
    rw [ih (start + 1) (fun u hu => h u (List.mem_cons_of_mem a hu)) ht]
    congr 1
    simp only [List.length_cons]
    omega

/-- Removing the unique tab with a given id by `filter` deletes exactly that
tab. -/
theorem filter_ne_id (l₁ l₂ : List Tab) (t : Tab)
    (h₁ : ∀ u ∈ l₁, u.id ≠ t.id) (h₂ : ∀ u ∈ l₂, u.id ≠ t.id) :
    (l₁ ++ t :: l₂).filter (fun u => ¬ u.id = t.id) = l₁ ++ l₂ := by
  rw [List.filter_append, List.filter_cons]
  rw [if_neg (by simp), List.filter_eq_self.2 (fun u hu => by simp [h₁ u hu]),
    List.filter_eq_self.2 (fun u hu => by simp [h₂ u hu])]

/-- `activateAt` does not change the id sequence. -/
theorem activateAt_map_id (l : List Tab) : ∀ j : Nat, (activateAt l j).map (·.id) = l.map (·.id) := by
  induction l with
  | nil => intro j; rfl
  | cons a l ih =>
    intro j
    cases j with
    | zero => simp [activateAt]
    | succ n => simp [activateAt, ih n]

/-- `activateAt` at position `l₁.length` of `l₁ ++ u :: us` flips exactly
`u`'s flag. -/
theorem activateAt_append (l₁ : List Tab) (u : Tab) (us : List Tab) :
    activateAt (l₁ ++ u :: us) l₁.length = l₁ ++ { u with isActive := true } :: us := by
  induction l₁ with
  | nil => rfl
  | cons a l ih => simp [activateAt, ih]

/-- Activating one position of an all-inactive list yields exactly one active
tab. -/
theorem activeCount_activateAt (l : List Tab) :
    ∀ j : Nat, (∀ u ∈ l, u.isActive = false) → j < l.length →
      activeCount (activateAt l j) = 1 := by
  induction l with
  | nil => intro j _ hj; simp at hj
  | cons a l ih =>
    intro j hall hj
    cases j with
    | zero =>
      have : activeCount l = 0 :=
        List.countP_eq_zero.2 fun u hu => by simp [hall u (List.mem_cons_of_mem a hu)]
      simp [activateAt, activeCount, List.countP_cons] at this ⊢
      exact this
    | succ n =>
      have ha : a.isActive = false := hall a (List.mem_cons_self a l)
      have := ih n (fun u hu => hall u (List.mem_cons_of_mem a hu)) (by simpa using hj)
      simp [activateAt, activeCount, List.countP_cons, ha] at this ⊢
      exact this

/-- Characterization of `closeTab` when the tab list decomposes around the
unique tab carrying the closed id: the tab is removed, and the three branches
of the source (`reassign active`, `list emptied`, `inactive tab closed`)
appear as the two nested conditionals. -/
theorem closeTab_found (s : SessionState) (l₁ l₂ : List Tab) (t : Tab)
    (hs : s.tabs = l₁ ++ t :: l₂)
    (h₁ : ∀ u ∈ l₁, u.id ≠ t.id) (h₂ : ∀ u ∈ l₂, u.id ≠ t.id) :
    closeTab s t.id =
      if t.isActive = true ∧ 0 < (l₁ ++ l₂).length then
        { s with
          tabs := activateAt (l₁ ++ l₂)
            (if l₁.length < (l₁ ++ l₂).length then l₁.length else l₁.length - 1)
          activeTabId := (((l₁ ++ l₂).get?
            (if l₁.length < (l₁ ++ l₂).length then l₁.length else l₁.length - 1))).map (·.id) }
      else if (l₁ ++ l₂).length = 0 then { s with tabs := l₁ ++ l₂, activeTabId := none }
      else { s with tabs := l₁ ++ l₂ } := by
  have hfi : (l₁ ++ t :: l₂).findIdx? (fun u => u.id = t.id) = some l₁.length := by
    have := findIdx?_append_first (fun u => decide (u.id = t.id)) l₁ t l₂ 0
      (fun u hu => by simp [h₁ u hu]) (by simp)
    simpa using this
  have hfil : (l₁ ++ t :: l₂).filter (fun u => ¬ u.id = t.id) = l₁ ++ l₂ :=
    filter_ne_id l₁ l₂ t h₁ h₂
  have hget : (l₁ ++ t :: l₂).get? l₁.length = some t := by
    rw [List.get?_eq_getElem?, List.getElem?_append]
    simp
  simp only [closeTab, hs, hfi, hfil, hget, Option.map_some', Option.getD_some]

/-- A tab list with distinct ids containing the id splits around the unique
tab carrying it. -/
theorem exists_decomp_of_mem_ids (tabs : List Tab) (tabId : String)
    (hnd : (tabs.map (·.id)).Nodup) (hmem : tabId ∈ tabs.map (·.id)) :
    ∃ l₁ t l₂, tabs = l₁ ++ t :: l₂ ∧ t.id = tabId ∧
      (∀ u ∈ l₁, u.id ≠ t.id) ∧ (∀ u ∈ l₂, u.id ≠ t.id) := by
  obtain ⟨t, ht, rfl⟩ := List.mem_map.1 hmem
  obtain ⟨l₁, l₂, rfl⟩ := List.append_of_mem ht
  rw [List.map_append, List.map_cons] at hnd
  have hnotmem := (List.nodup_cons.1 (List.nodup_middle.1 hnd)).1
  refine ⟨l₁, t, l₂, rfl, rfl, ?_, ?_⟩
  · intro u hu heq
    exact hnotmem (List.mem_append_left _ (heq ▸ List.mem_map_of_mem (·.id) hu))
  · intro u hu heq
    exact hnotmem (List.mem_append_right _ (heq ▸ List.mem_map_of_mem (·.id) hu))

/-- `closeTab` on an id carried by no tab is the identity (`findIndex`
returns `-1` and the updater returns `prev`). -/
theorem closeTab_not_found (s : SessionState) (tabId : String)
    (h : tabId ∉ s.tabs.map (·.id)) : closeTab s tabId = s := by
  have : s.tabs.findIdx? (fun t => t.id = tabId) = none :=
    findIdx?_eq_none_of_all _ _ 0 fun u hu => by
      simp only [decide_eq_false_iff_not]
      exact fun heq => h (heq ▸ List.mem_map_of_mem (·.id) hu)
  simp [closeTab, this]

/-- Claim C5: closing the active tab when other tabs remain activates the tab
now occupying the closed tab's list position (the first tab after it), or
the predecessor tab when the closed tab was last; closing the last remaining
tab leaves no active tab. -/
theorem closeTab_active_reassign (s : SessionState) (l₁ l₂ : List Tab) (t : Tab)
    (hs : s.tabs = l₁ ++ t :: l₂)
    (hnd : (s.tabs.map (·.id)).Nodup)
    (hact : t.isActive = true) :
    (∀ u us, l₂ = u :: us →
      (closeTab s t.id).tabs = l₁ ++ { u with isActive := true } :: us ∧
      (closeTab s t.id).activeTabId = some u.id) ∧
    (∀ vs v, l₂ = [] → l₁ = vs ++ [v] →
      (closeTab s t.id).tabs = vs ++ [{ v with isActive := true }] ∧
      (closeTab s t.id).activeTabId = some v.id) ∧
    (l₁ = [] → l₂ = [] →
      (closeTab s t.id).tabs = [] ∧ (closeTab s t.id).activeTabId = none) := by
  rw [hs, List.map_append, List.map_cons] at hnd
  have hnotmem := (List.nodup_cons.1 (List.nodup_middle.1 hnd)).1
  have h₁ : ∀ u ∈ l₁, u.id ≠ t.id := fun u hu heq =>
    hnotmem (List.mem_append_left _ (heq ▸ List.mem_map_of_mem (·.id) hu))
  have h₂ : ∀ u ∈ l₂, u.id ≠ t.id := fun u hu heq =>
    hnotmem (List.mem_append_right _ (heq ▸ List.mem_map_of_mem (·.id) hu))
  rw [closeTab_found s l₁ l₂ t hs h₁ h₂]
  refine ⟨?_, ?_, ?_⟩
  · rintro u us rfl
    have hlt : l₁.length < (l₁ ++ u :: us).length := by
      simp [List.length_append]
    rw [if_pos ⟨hact, by simp⟩, if_pos hlt]
    constructor
    · simp [activateAt_append]
    · have : (l₁ ++ u :: us).get? l₁.length = some u := by
        rw [List.get?_eq_getElem?, List.getElem?_append]
        simp
      show Option.map (fun x => x.id) ((l₁ ++ u :: us).get? l₁.length) = some u.id
      rw [this]
      rfl
  · rintro vs v rfl rfl
    have hnlt : ¬ (vs ++ [v]).length < ((vs ++ [v]) ++ ([] : List Tab)).length := by simp
    rw [if_pos ⟨hact, by simp⟩, if_neg hnlt]
    have hidx : (vs ++ [v]).length - 1 = vs.length := by simp
    constructor
    · rw [hidx]
      have := activateAt_append vs v []
      simpa using this
    · rw [hidx]
      have : ((vs ++ [v]) ++ ([] : List Tab)).get? vs.length = some v := by
        rw [List.append_nil, List.get?_eq_getElem?, List.getElem?_append]
        simp
      simp [this]
  · rintro rfl rfl
    rw [if_neg (by simp), if_pos (by simp)]
    exact ⟨rfl, rfl⟩

/-- Witness for C5: closing active `t1` in a three-tab list activates the tab
that moves into its position (`t2`); closing the sole remaining tab of a
one-tab list leaves none active. -/
theorem closeTab_active_reassign_witness :
    ((closeTab state3 "t1").tabs = [{ tabP2 with isActive := true }, tabDash] ∧
      (closeTab state3 "t1").activeTabId = some "t2") ∧
    ((closeTab { tabs := [tabP1], activeTabId := some "t1", storage := none } "t1").tabs = [] ∧
      (closeTab { tabs := [tabP1], activeTabId := some "t1", storage := none } "t1").activeTabId
        = none) := by
  constructor
  · exact (closeTab_active_reassign state3 [] [tabP2, tabDash] tabP1 rfl (by decide) rfl).1
      tabP2 [tabDash] rfl
  · exact (closeTab_active_reassign
      { tabs := [tabP1], activeTabId := some "t1", storage := none } [] [] tabP1 rfl
      (by decide) rfl).2.2 rfl rfl

/-- A non-empty list makes the empty-vs-one conditional of `TabsOK` yield 1. -/
theorem ite_isEmpty_eq_one (l : List Tab) (h : l ≠ []) :
    (if l.isEmpty then 0 else 1) = 1 := by
  cases l with
  | nil => exact absurd rfl h
  | cons a t => rfl

/-- `activateAt` of a non-empty list is non-empty. -/
theorem activateAt_ne_nil (l : List Tab) (j : Nat) (h : l ≠ []) : activateAt l j ≠ [] := by
  cases l with
  | nil => exact absurd rfl h
  | cons a t => cases j <;> simp [activateAt]

/-- `TabsOK` is preserved by `closeTab`. -/
theorem closeTab_TabsOK (s : SessionState) (tabId : String) (hOK : TabsOK s.tabs) :
    TabsOK (closeTab s tabId).tabs := by
  by_cases hmem : tabId ∈ s.tabs.map (·.id)
  · obtain ⟨l₁, t, l₂, hs, rfl, h₁, h₂⟩ := exists_decomp_of_mem_ids _ _ hOK.1 hmem
    have hndL : ((l₁ ++ l₂).map (·.id)).Nodup := by
      have := hOK.1
      rw [hs, List.map_append, List.map_cons] at this
      rw [List.map_append]
      exact (List.nodup_cons.1 (List.nodup_middle.1 this)).2
    have hcnt : List.countP (·.isActive) l₁ +
        (List.countP (·.isActive) l₂ + (if t.isActive = true then 1 else 0)) = 1 := by
      have := hOK.2
      rw [hs] at this
      simpa [activeCount, List.countP_append, List.countP_cons] using this
    rw [closeTab_found s l₁ l₂ t hs h₁ h₂]
    by_cases hc : t.isActive = true ∧ 0 < (l₁ ++ l₂).length
    · rw [if_pos hc]
      simp only [hc.1, if_pos] at hcnt
      have hz₁ : List.countP (·.isActive) l₁ = 0 := by omega
      have hz₂ : List.countP (·.isActive) l₂ = 0 := by omega
      have hall : ∀ u ∈ l₁ ++ l₂, u.isActive = false := by
        intro u hu
        rcases List.mem_append.1 hu with h | h
        · simpa using List.countP_eq_zero.1 hz₁ u h
        · simpa using List.countP_eq_zero.1 hz₂ u h
      have hjlt : (if l₁.length < (l₁ ++ l₂).length then l₁.length else l₁.length - 1)
          < (l₁ ++ l₂).length := by
        rcases hc with ⟨-, hpos⟩
        rw [List.length_append] at hpos ⊢
        split <;> omega
      show TabsOK (activateAt (l₁ ++ l₂)
        (if l₁.length < (l₁ ++ l₂).length then l₁.length else l₁.length - 1))
      have hneq : l₁ ++ l₂ ≠ [] := List.length_pos.1 hc.2
      refine ⟨by rw [activateAt_map_id]; exact hndL, ?_⟩
      rw [activeCount_activateAt _ _ hall hjlt,
        ite_isEmpty_eq_one _ (activateAt_ne_nil _ _ hneq)]
    · rw [if_neg hc]
      by_cases h0 : (l₁ ++ l₂).length = 0
      · rw [if_pos h0]
        have he : l₁ ++ l₂ = [] := List.length_eq_zero.1 h0
        show TabsOK (l₁ ++ l₂)
        simp [he, TabsOK, activeCount]
      · rw [if_neg h0]
        have htin : t.isActive = false := by
          by_contra hta
          exact hc ⟨by simpa using hta, by omega⟩
        show TabsOK (l₁ ++ l₂)
        refine ⟨hndL, ?_⟩
        rw [htin] at hcnt
        simp at hcnt
        have hone : activeCount (l₁ ++ l₂) = 1 := by
          rw [activeCount, List.countP_append]
          omega
        rw [hone, ite_isEmpty_eq_one]
        intro he
        rw [he] at h0
        exact h0 rfl
  · rw [closeTab_not_found s tabId hmem]
    exact hOK

/-- Exactly one tab of a decomposed list satisfies the id test. -/
theorem countP_pred_id_eq_one (l₁ l₂ : List Tab) (t : Tab)
    (h₁ : ∀ u ∈ l₁, u.id ≠ t.id) (h₂ : ∀ u ∈ l₂, u.id ≠ t.id) :
    List.countP (fun u => u.id = t.id) (l₁ ++ t :: l₂) = 1 := by
  rw [List.countP_append, List.countP_cons,
    List.countP_eq_zero.2 (fun u hu => by simp [h₁ u hu]),
    List.countP_eq_zero.2 (fun u hu => by simp [h₂ u hu])]
  simp

/-- `switchToTab` does not change the id sequence. -/
theorem switchToTab_tabs_map_id (s : SessionState) (tabId : String) (now : Nat) :
    ((switchToTab s tabId now).tabs).map (·.id) = s.tabs.map (·.id) := by
  simp only [switchToTab, List.map_map]
  exact List.map_congr_left fun t _ => rfl

/-- The active count after `switchToTab` is the number of tabs carrying the
target id. -/
theorem switchToTab_activeCount (s : SessionState) (tabId : String) (now : Nat) :
    activeCount (switchToTab s tabId now).tabs =
      s.tabs.countP (fun u => u.id = tabId) := by
  simp only [switchToTab, activeCount, List.countP_map]
  exact List.countP_congr fun u _ => Iff.rfl

/-- `TabsOK` is preserved by `switchToTab` on the id of an open tab. -/
theorem switchToTab_TabsOK (s : SessionState) (tabId : String) (now : Nat)
    (hOK : TabsOK s.tabs) (hmem : tabId ∈ s.tabs.map (·.id)) :
    TabsOK (switchToTab s tabId now).tabs := by
  obtain ⟨l₁, t, l₂, hs, rfl, h₁, h₂⟩ := exists_decomp_of_mem_ids _ _ hOK.1 hmem
  constructor
  · rw [switchToTab_tabs_map_id]
    exact hOK.1
  · rw [switchToTab_activeCount, hs, countP_pred_id_eq_one l₁ l₂ t h₁ h₂,
      ite_isEmpty_eq_one _ (by simp [switchToTab, hs])]

/-- `closeTab` only ever removes tabs: its id sequence is a sublist of the
original one. -/
theorem closeTab_ids_sublist (s : SessionState) (tabId : String) :
    ((closeTab s tabId).tabs.map (·.id)).Sublist (s.tabs.map (·.id)) := by
  have hact : ∀ j : Nat,
      (((activateAt (s.tabs.filter fun t => ¬ t.id = tabId) j)).map (·.id)).Sublist
        (s.tabs.map (·.id)) := by
    intro j
    rw [activateAt_map_id]
    exact (List.filter_sublist _).map _
  unfold closeTab
  split
  · exact List.Sublist.refl _
  · dsimp only
    split
    · exact hact _
    · split
      · exact (List.filter_sublist _).map _
      · exact (List.filter_sublist _).map _

/-- `closeTab` leaves the saved session untouched. -/
theorem closeTab_storage (s : SessionState) (tabId : String) :
    (closeTab s tabId).storage = s.storage := by
  unfold closeTab
  split
  · rfl
  · dsimp only
    split
    · rfl
    · split
      · rfl
      · rfl

/-- The tab found by the dedup check is one of the open tabs. -/
theorem dedupTarget_mem (s : SessionState) (td : TabData) (e : Tab)
    (h : dedupTarget s td = some e) : e ∈ s.tabs := by
  unfold dedupTarget at h
  split at h
  · exact List.mem_of_find?_eq_some h
  · cases h

/-- Appending a fresh active tab to a deactivated well-formed list yields a
well-formed list. -/
theorem TabsOK_append_new (l : List Tab) (nt : Tab) (hnd : (l.map (·.id)).Nodup)
    (hfresh : nt.id ∉ l.map (·.id)) (hact : nt.isActive = true) :
    TabsOK ((l.map fun u => { u with isActive := false }) ++ [nt]) := by
  constructor
  · rw [List.map_append, List.map_map]
    have he : ((fun u : Tab => u.id) ∘ fun u : Tab => ({ u with isActive := false } : Tab)) =
        fun u : Tab => u.id := rfl
    rw [he]
    rw [List.nodup_append]
    refine ⟨hnd, by simp, ?_⟩
    intro x hx hx'
    simp at hx'
    exact hfresh (hx' ▸ hx)
  · rw [activeCount, List.countP_append, List.countP_map]
    have he : ((fun u : Tab => u.isActive) ∘ fun u : Tab => ({ u with isActive := false } : Tab)) =
        fun _ : Tab => false := rfl
    rw [he]
    simp [List.countP_cons, hact]

/-- The new-tab path of `openTab`, written out. -/
theorem openTab_new_eq (s : SessionState) (td : TabData) (newId : String) (now : Nat)
    (hde : dedupTarget s td = none) :
    (openTab s td newId now).1.tabs =
      ((if s.tabs.length ≥ MAX_TABS then
          (match s.tabs with | [] => s | t :: ts => closeTab s (oldestFold t ts).id)
        else s).tabs.map fun u => { u with isActive := false }) ++ [mkNewTab td newId now] := by
  simp only [openTab, hde]

/-- `TabsOK` is preserved by `openTab` with a fresh generated id. -/
theorem openTab_TabsOK (s : SessionState) (td : TabData) (newId : String) (now : Nat)
    (hOK : TabsOK s.tabs) (hfresh : newId ∉ s.tabs.map (·.id)) :
    TabsOK (openTab s td newId now).1.tabs := by
  rcases hde : dedupTarget s td with _ | e
  · rw [openTab_new_eq s td newId now hde]
    have hS : TabsOK (if s.tabs.length ≥ MAX_TABS then
          (match s.tabs with | [] => s | t :: ts => closeTab s (oldestFold t ts).id)
        else s).tabs ∧
        ∀ x ∈ (if s.tabs.length ≥ MAX_TABS then
          (match s.tabs with | [] => s | t :: ts => closeTab s (oldestFold t ts).id)
        else s).tabs.map (·.id), x ∈ s.tabs.map (·.id) := by
      by_cases hcap : s.tabs.length ≥ MAX_TABS
      · rw [if_pos hcap]
        rcases hts : s.tabs with _ | ⟨t, ts⟩
        · rw [hts] at hcap
          norm_num [MAX_TABS] at hcap
        · simp only [hts]
          rw [← hts]
          exact ⟨closeTab_TabsOK s _ hOK,
            fun x hx => (closeTab_ids_sublist s _).subset hx⟩
      · rw [if_neg hcap]
        exact ⟨hOK, fun x hx => hx⟩
    exact TabsOK_append_new _ _ hS.1.1 (fun hm => hfresh (hS.2 _ hm)) rfl
  · have he : (openTab s td newId now).1 = switchToTab s e.id now := by
      simp only [openTab, hde]
    rw [he]
    exact switchToTab_TabsOK s e.id now hOK
      (List.mem_map_of_mem (·.id) (dedupTarget_mem s td e hde))

/-- `openTab` leaves the saved session untouched. -/
theorem openTab_storage (s : SessionState) (td : TabData) (newId : String) (now : Nat) :
    (openTab s td newId now).1.storage = s.storage := by
  rcases hde : dedupTarget s td with _ | e
  · rw [show (openTab s td newId now).1.storage = (if s.tabs.length ≥ MAX_TABS then
          (match s.tabs with | [] => s | t :: ts => closeTab s (oldestFold t ts).id)
        else s).storage from by simp only [openTab, hde]]
    by_cases hcap : s.tabs.length ≥ MAX_TABS
    · rw [if_pos hcap]
      rcases hts : s.tabs with _ | ⟨t, ts⟩
      · rfl
      · simp only [hts]
        exact closeTab_storage s _
    · rw [if_neg hcap]
  · simp only [openTab, hde]
    rfl

/-- `TabsOK` is preserved by `closeOtherTabs`. -/
theorem closeOtherTabs_TabsOK (s : SessionState) (tabId : String) (hOK : TabsOK s.tabs) :
    TabsOK (closeOtherTabs s tabId).tabs := by
  unfold closeOtherTabs
  split
  · exact hOK
  · exact ⟨by simp, by simp [activeCount]⟩

/-- `TabsOK` is preserved by a reorder. -/
theorem reorderState_TabsOK (s : SessionState) (i j : Nat) (hOK : TabsOK s.tabs) :
    TabsOK (reorderState s i j).tabs := by
  have hp := moveTab_perm s.tabs i j
  show TabsOK (moveTab s.tabs i j)
  refine ⟨(hp.map (·.id)).nodup_iff.2 hOK.1, ?_⟩
  rw [activeCount, hp.countP_eq]
  have hie : (moveTab s.tabs i j).isEmpty = s.tabs.isEmpty := by
    have hl := hp.length_eq
    cases hm : moveTab s.tabs i j with
    | nil =>
      cases hs2 : s.tabs with
      | nil => rfl
      | cons b u =>
        rw [hm, hs2] at hl
        simp at hl
    | cons a t =>
      cases hs2 : s.tabs with
      | nil =>
        rw [hm, hs2] at hl
        simp at hl
      | cons b u => rfl
  rw [hie]
  exact hOK.2

/-- Every SessionManager step preserves session well-formedness. -/
theorem step_StateOK {s s' : SessionState} (hOK : StateOK s) (hstep : Step s s') : StateOK s' := by
  cases hstep with
  | openT td newId now hfresh =>
    refine ⟨openTab_TabsOK s td newId now hOK.1 hfresh, fun ts a h => ?_⟩
    rw [openTab_storage] at h
    exact hOK.2 ts a h
  | closeT tabId =>
    refine ⟨closeTab_TabsOK s tabId hOK.1, fun ts a h => ?_⟩
    rw [closeTab_storage] at h
    exact hOK.2 ts a h
  | closeAllT =>
    exact ⟨⟨by simp [closeAllTabs], by simp [closeAllTabs, activeCount]⟩,
      fun ts a h => hOK.2 ts a h⟩
  | closeOthersT tabId =>
    refine ⟨closeOtherTabs_TabsOK s tabId hOK.1, fun ts a h => ?_⟩
    have hst : (closeOtherTabs s tabId).storage = s.storage := by
      unfold closeOtherTabs
      split
      · rfl
      · rfl
    rw [hst] at h
    exact hOK.2 ts a h
  | switchT tabId now hmem =>
    exact ⟨switchToTab_TabsOK s tabId now hOK.1 hmem, fun ts a h => hOK.2 ts a h⟩
  | reorderT i j hi =>
    exact ⟨reorderState_TabsOK s i j hOK.1, fun ts a h => hOK.2 ts a h⟩
  | saveT =>
    refine ⟨hOK.1, fun ts a h => ?_⟩
    simp only [saveTabs, Option.some.injEq, StoredValue.session.injEq] at h
    rw [← h.1]
    exact hOK.1
  | loadT =>
    rcases hst : s.storage with _ | v
    · have he : loadTabs s = s := by simp [loadTabs, loadTabsTry, hst]
      rw [he]
      exact hOK
    · rcases v with raw | ⟨ts, a⟩
      · have he : loadTabs s = s := by simp [loadTabs, loadTabsTry, hst]
        rw [he]
        exact hOK
      · have he : loadTabs s = { s with tabs := ts, activeTabId := a } := by
          simp [loadTabs, loadTabsTry, hst]
        rw [he]
        exact ⟨hOK.2 ts a hst, fun ts2 a2 h2 => hOK.2 ts2 a2 h2⟩

/-- The initial provider state is well-formed. -/
theorem initialState_StateOK : StateOK initialState := by
  refine ⟨⟨by simp [initialState], by simp [initialState, activeCount]⟩, fun ts a h => ?_⟩
  cases h

/-- Every reachable session state is well-formed. -/
theorem reachable_StateOK {s : SessionState} (h : Reachable s) : StateOK s := by
  induction h with
  | init => exact initialState_StateOK
  | step _ hstep ih => exact step_StateOK ih hstep

/-- A page-tab descriptor for page `p1`, used in concrete instances. -/
def dataP1 : TabData :=
  { title := "Alpha", type := TabType.page, content := { pageId := some "p1" },
    hasUnsavedChanges := false }

/-- Claim C1: over every sequence of SessionManager operations (`openTab`,
`closeTab`, `closeAllTabs`, `closeOtherTabs`, `switchToTab` on an open tab's
id, `reorderTabs` on a position of the list, `loadTabs`, plus `saveTabs`)
the tab list has exactly one tab with `isActive = true` whenever it is
non-empty, and none when it is empty. -/
theorem session_single_active (s : SessionState) (h : Reachable s) :
    activeCount s.tabs = (if s.tabs.isEmpty then 0 else 1) :=
  (reachable_StateOK h).1.2

/-- Witness for C1: the state after opening one page tab from the initial
state is reachable and has exactly one active tab. -/
theorem session_single_active_witness :
    activeCount (openTab initialState dataP1 "t1" 0).1.tabs =
      (if (openTab initialState dataP1 "t1" 0).1.tabs.isEmpty then 0 else 1) :=
  session_single_active _
    (Reachable.step Reachable.init (Step.openT initialState dataP1 "t1" 0 (by decide)))

/-- The reduce scan splits over an append. -/
theorem oldestFold_append (xs ys : List Tab) :
    ∀ acc : Tab, oldestFold acc (xs ++ ys) = oldestFold (oldestFold acc xs) ys := by
  induction xs with
  | nil => intro acc; rfl
  | cons a l ih => intro acc; exact ih _

/-- The reduce scan returns the accumulator or a list element. -/
theorem oldestFold_mem (t : Tab) (ts : List Tab) : oldestFold t ts ∈ t :: ts := by
  suffices h : ∀ (l : List Tab) (acc : Tab), oldestFold acc l ∈ acc :: l from h ts t
  intro l
  induction l with
  | nil => intro acc; exact List.mem_cons_self _ _
  | cons a l ih =>
    intro acc
    have := ih (if a.lastAccessed < acc.lastAccessed then a else acc)
    rcases List.mem_cons.1 this with h | h
    · rw [oldestFold, h]
      split
      · exact List.mem_cons_of_mem _ (List.mem_cons_self _ _)
      · exact List.mem_cons_self _ _
    · exact List.mem_cons_of_mem _ (List.mem_cons_of_mem _ h)

/-- The reduce scan keeps an accumulator that is already minimal (strict
comparison: ties keep the earlier tab). -/
theorem oldestFold_stays (acc : Tab) (l : List Tab)
    (h : ∀ u ∈ l, acc.lastAccessed ≤ u.lastAccessed) : oldestFold acc l = acc := by
  induction l with
  | nil => rfl
  | cons a t ih =>
    rw [oldestFold, if_neg (by
      have := h a (List.mem_cons_self a t)
      omega)]
    exact ih fun u hu => h u (List.mem_cons_of_mem a hu)

/-- The reduce scan of `openTab` returns the first tab attaining the minimal
`lastAccessed` (ties broken by insertion order). -/
theorem oldestFold_eq_first_min (t : Tab) (ts l₁ l₂ : List Tab) (m : Tab)
    (hdec : t :: ts = l₁ ++ m :: l₂)
    (hlt : ∀ u ∈ l₁, m.lastAccessed < u.lastAccessed)
    (hle : ∀ u ∈ l₂, m.lastAccessed ≤ u.lastAccessed) :
    oldestFold t ts = m := by
  cases l₁ with
  | nil =>
    simp only [List.nil_append, List.cons.injEq] at hdec
    rw [hdec.1, hdec.2]
    exact oldestFold_stays m l₂ (hdec.1 ▸ hle)
  | cons a l₁ =>
    simp only [List.cons_append, List.cons.injEq] at hdec
    obtain ⟨rfl, rfl⟩ := hdec
    rw [oldestFold_append l₁ (m :: l₂) t]
    have hacc : oldestFold t l₁ ∈ t :: l₁ := oldestFold_mem t l₁
    have hgt : m.lastAccessed < (oldestFold t l₁).lastAccessed := hlt _ hacc
    rw [oldestFold, if_pos hgt]
    exact oldestFold_stays m l₂ hle

/-- `activateAt` preserves length. -/
theorem activateAt_length (l : List Tab) (j : Nat) : (activateAt l j).length = l.length := by
  have := congrArg List.length (activateAt_map_id l j)
  simpa using this

/-- The deactivation map erases what `activateAt` did. -/
theorem activateAt_map_inactive (l : List Tab) :
    ∀ j : Nat, (activateAt l j).map (fun u => { u with isActive := false }) =
      l.map (fun u => { u with isActive := false }) := by
  induction l with
  | nil => intro j; rfl
  | cons a l ih =>
    intro j
    cases j with
    | zero => simp [activateAt]
    | succ n => simp [activateAt, ih n]

/-- With distinct ids, `closeTab` on a present id removes exactly one tab. -/
theorem closeTab_length_of_mem (s : SessionState) (tabId : String)
    (hnd : (s.tabs.map (·.id)).Nodup) (hmem : tabId ∈ s.tabs.map (·.id)) :
    (closeTab s tabId).tabs.length = s.tabs.length - 1 := by
  obtain ⟨l₁, t, l₂, hs, rfl, h₁, h₂⟩ := exists_decomp_of_mem_ids _ _ hnd hmem
  have hlen : (l₁ ++ l₂).length = s.tabs.length - 1 := by
    rw [hs]
    simp [List.length_append]
  rw [closeTab_found s l₁ l₂ t hs h₁ h₂]
  by_cases hc : t.isActive = true ∧ 0 < (l₁ ++ l₂).length
  · rw [if_pos hc]
    show (activateAt (l₁ ++ l₂) _).length = _
    rw [activateAt_length, hlen]
  · rw [if_neg hc]
    by_cases h0 : (l₁ ++ l₂).length = 0
    · rw [if_pos h0]
      show (l₁ ++ l₂).length = _
      rw [hlen]
    · rw [if_neg h0]
      show (l₁ ++ l₂).length = _
      rw [hlen]

/-- Claim C3 (amended): after any `openTab` the tab list still holds at most
`MAX_TABS` tabs provided it did before; and when the list held exactly
`MAX_TABS` tabs and the descriptor does not bind an already-open page id,
exactly the first tab attaining the smallest `lastAccessed` (ties broken by
insertion order) is evicted before the new active tab is appended. -/
theorem openTab_capacity_eviction (s : SessionState) (td : TabData) (newId : String)
    (now : Nat) (hnd : (s.tabs.map (·.id)).Nodup) :
    (s.tabs.length ≤ MAX_TABS → (openTab s td newId now).1.tabs.length ≤ MAX_TABS) ∧
    (∀ l₁ m l₂, s.tabs = l₁ ++ m :: l₂ →
      (∀ u ∈ l₁, m.lastAccessed < u.lastAccessed) →
      (∀ u ∈ l₂, m.lastAccessed ≤ u.lastAccessed) →
      s.tabs.length = MAX_TABS →
      dedupTarget s td = none →
      (openTab s td newId now).1.tabs =
        ((l₁ ++ l₂).map fun u => { u with isActive := false }) ++
          [mkNewTab td newId now]) := by
  constructor
  · intro hle
    rcases hde : dedupTarget s td with _ | e
    · rw [openTab_new_eq s td newId now hde, List.length_append, List.length_map]
      by_cases hcap : s.tabs.length ≥ MAX_TABS
      · rw [if_pos hcap]
        rcases hts : s.tabs with _ | ⟨t, ts⟩
        · rw [hts] at hcap
          norm_num [MAX_TABS] at hcap
        · simp only [hts]
          have hm : oldestFold t ts ∈ s.tabs := by
            rw [hts]
            exact oldestFold_mem t ts
          rw [closeTab_length_of_mem s _ hnd (List.mem_map_of_mem _ hm)]
          simp only [List.length_singleton]
          simp only [MAX_TABS] at hle hcap ⊢
          omega
      · rw [if_neg hcap]
        simp only [List.length_singleton]
        simp only [MAX_TABS] at hle hcap ⊢
        omega
    · have he : (openTab s td newId now).1 = switchToTab s e.id now := by
        simp only [openTab, hde]
      rw [he]
      simp only [switchToTab, List.length_map]
      exact hle
  · intro l₁ m l₂ hs hlt hle hcap hde
    have hcap' : s.tabs.length ≥ MAX_TABS := hcap.ge
    rw [openTab_new_eq s td newId now hde, if_pos hcap']
    rcases hts : s.tabs with _ | ⟨t, ts⟩
    · rw [hts] at hcap
      norm_num [MAX_TABS] at hcap
    · simp only [hts]
      have hdec : t :: ts = l₁ ++ m :: l₂ := by
        rw [← hts, hs]
      rw [oldestFold_eq_first_min t ts l₁ l₂ m hdec hlt hle]
      have hnd' := hnd
      rw [hs, List.map_append, List.map_cons] at hnd'
      have hnotmem := (List.nodup_cons.1 (List.nodup_middle.1 hnd')).1
      have h₁ : ∀ u ∈ l₁, u.id ≠ m.id := fun u hu heq =>
        hnotmem (List.mem_append_left _ (heq ▸ List.mem_map_of_mem (·.id) hu))
      have h₂ : ∀ u ∈ l₂, u.id ≠ m.id := fun u hu heq =>
        hnotmem (List.mem_append_right _ (heq ▸ List.mem_map_of_mem (·.id) hu))
      rw [closeTab_found s l₁ l₂ m hs h₁ h₂]
      have hL : (l₁ ++ l₂).length = MAX_TABS - 1 := by
        rw [hs] at hcap
        rw [List.length_append] at hcap ⊢
        simp only [List.length_cons] at hcap
        omega
      by_cases hc : m.isActive = true ∧ 0 < (l₁ ++ l₂).length
      · rw [if_pos hc]
        show (activateAt (l₁ ++ l₂) _).map (fun u => { u with isActive := false }) ++ _ = _
        rw [activateAt_map_inactive]
      · rw [if_neg hc]
        have h0 : ¬ (l₁ ++ l₂).length = 0 := by
          rw [hL]
          norm_num [MAX_TABS]
        rw [if_neg h0]

/-- Tab number `n` of the concrete at-capacity session: bound to page `pN`,
`lastAccessed = n`, tab 5 active. -/
def tabN (n : Nat) : Tab :=
  { id := "t" ++ toString n, title := "Page " ++ toString n, type := TabType.page,
    content := { pageId := some ("p" ++ toString n) }, hasUnsavedChanges := false,
    isActive := n = 5, lastAccessed := n }

/-- The 19 newer tabs of the at-capacity session. -/
def restTabs : List Tab := (List.range 19).map fun n => tabN (n + 1)

/-- A session at capacity: 20 tabs, `t5` active, `tabN 0` the unique
least-recently-accessed tab. -/
def capState : SessionState :=
  { tabs := tabN 0 :: restTabs, activeTabId := some "t5", storage := none }

/-- A page descriptor for the already-open page `p5`. -/
def dataP5 : TabData :=
  { title := "Page 5", type := TabType.page, content := { pageId := some "p5" },
    hasUnsavedChanges := false }

/-- A page descriptor for the not-yet-open page `p99`. -/
def dataP99 : TabData :=
  { title := "Page 99", type := TabType.page, content := { pageId := some "p99" },
    hasUnsavedChanges := false }

/-- Claim C3, counterexample: with the list at `MAX_TABS` and `tabN 0` the
unique tab of smallest `lastAccessed`, opening a descriptor for the
already-open page `p5` evicts nothing and appends nothing — `tabN 0` (with
its flags unchanged) is still present and no tab carries the fresh id —
contrary to the claim that the minimal tab is evicted and a new tab appended
whenever the list already held `MAX_TABS` tabs. -/
theorem c3_dedup_at_capacity_evicts_nothing :
    capState.tabs.length = MAX_TABS ∧
    (∀ u ∈ capState.tabs, u = tabN 0 ∨ (tabN 0).lastAccessed < u.lastAccessed) ∧
    (openTab capState dataP5 "fresh" 99).1.tabs.length = MAX_TABS ∧
    tabN 0 ∈ (openTab capState dataP5 "fresh" 99).1.tabs ∧
    (∀ u ∈ (openTab capState dataP5 "fresh" 99).1.tabs, u.id ≠ "fresh") := by
  decide

/-- Witness for C3 at the concrete at-capacity session: opening the fresh
page `p99` evicts exactly `tabN 0` and appends the new active tab. -/
theorem openTab_capacity_eviction_witness :
    (openTab capState dataP99 "fresh" 99).1.tabs =
      (restTabs.map fun u => { u with isActive := false }) ++
        [mkNewTab dataP99 "fresh" 99] := by
  have h := (openTab_capacity_eviction capState dataP99 "fresh" 99 (by decide)).2
    [] (tabN 0) restTabs rfl (by simp) (by decide) (by decide) (by decide)
  simpa using h

/-- The `linkType` values of `PageLinking.tsx`. -/
inductive LinkType where
  | manual
  | auto
  | reference
  | related
deriving DecidableEq, Repr

/-- The `PageLink` record of `PageLinking.tsx` (the `createdAt` ISO string is
modelled as a numeric timestamp). -/
structure PageLink where
  id : String
  sourcePageId : String
  targetPageId : String
  linkText : String
  linkType : LinkType
  createdAt : Nat
deriving DecidableEq, Repr

/-- The `Page` record of `NotebookContext.tsx`, restricted to the fields read
by the verified operations (`title`, `content`, `tags`, `order_index`, the
timestamps and the denormalized `subpages` array are never consulted by
them). -/
structure PageRec where
  id : String
  notebook_id : String
  section_id : Option String := none
  parent_page_id : Option String := none
deriving DecidableEq, Repr

/-- Modelled from the spec: the backend `get_page_links` command behind the
`getPageLinks` context function that `PageLinking.tsx` calls (the Rust
implementation is not part of the source tree).  Spec §4.2
`get_outgoing(page_id)` returns the links whose `source_page_id` equals
`page_id`, ordered by `created_at` ascending; the store is kept in creation
order, so filtering it returns that order. -/
def getPageLinks (links : List PageLink) (pageId : String) : List PageLink :=
  links.filter (fun l => l.sourcePageId = pageId)

/-- The backlink assembly of `loadData` in `PageLinking.tsx`: for every page
of every notebook, skipping the current page, push that page's outgoing
links, then keep those whose `targetPageId` is the current page. -/
def collectedLinks (links : List PageLink) (pages : List PageRec)
    (currentPageId : String) : List PageLink :=
  (pages.filter (fun p => ¬ p.id = currentPageId)).flatMap fun p => getPageLinks links p.id

/-- The `backlinks` state set by `loadData` in `PageLinking.tsx`. -/
def backlinksOf (links : List PageLink) (pages : List PageRec)
    (currentPageId : String) : List PageLink :=
  (collectedLinks links pages currentPageId).filter (fun l => l.targetPageId = currentPageId)

/-- Claim C6: when every link's source page exists in the page corpus and no
link is a self-link (the LinkGraph invariants: `source ≠ target`, links
cascade-deleted with their pages), the backlinks computed for page `T` are
exactly the links with `target_page_id = T` — membership independent of
creation order and of which page issued the query. -/
theorem backlinks_exact (links : List PageLink) (pages : List PageRec) (T : String)
    (hres : ∀ l ∈ links, l.sourcePageId ∈ pages.map (·.id))
    (hself : ∀ l ∈ links, l.sourcePageId ≠ l.targetPageId) :
    ∀ l : PageLink, l ∈ backlinksOf links pages T ↔ (l ∈ links ∧ l.targetPageId = T) := by
  intro l
  simp only [backlinksOf, collectedLinks, getPageLinks, List.mem_filter, List.mem_flatMap,
    decide_eq_true_eq]
  constructor
  · rintro ⟨⟨p, ⟨hp, hpne⟩, hl, hsrc⟩, ht⟩
    exact ⟨hl, ht⟩
  · rintro ⟨hl, ht⟩
    obtain ⟨p, hp, hpid⟩ := List.mem_map.1 (hres l hl)
    have hne : ¬ p.id = T := fun h =>
      (hself l hl) ((hpid.symm.trans h).trans ht.symm)
    exact ⟨⟨p, ⟨hp, hne⟩, hl, hpid.symm⟩, ht⟩

/-- Three pages used in the concrete backlink instance. -/
def pagesC : List PageRec :=
  [{ id := "p1", notebook_id := "n1" }, { id := "p2", notebook_id := "n1" },
   { id := "p3", notebook_id := "n1" }]

/-- Two links pointing at `p2`, created from different pages and in reverse
chronological order. -/
def linksC : List PageLink :=
  [{ id := "l2", sourcePageId := "p3", targetPageId := "p2", linkText := "see also",
     linkType := LinkType.manual, createdAt := 7 },
   { id := "l1", sourcePageId := "p1", targetPageId := "p2", linkText := "ref",
     linkType := LinkType.reference, createdAt := 3 }]

/-- Witness for C6 at a concrete corpus: the link `p1 → p2` is reported as a
backlink of `p2`. -/
theorem backlinks_exact_witness :
    { id := "l1", sourcePageId := "p1", targetPageId := "p2", linkText := "ref",
      linkType := LinkType.reference, createdAt := 3 : PageLink } ∈
      backlinksOf linksC pagesC "p2" :=
  (backlinks_exact linksC pagesC "p2" (by decide) (by decide) _).mpr (by decide)

/-- The typed failures of the hierarchy backend (spec §7). -/
inductive HierarchyError where
  | notFound
  | invalidHierarchy
deriving DecidableEq, Repr

/-- The `Section` record of `NotebookContext.tsx`, restricted to the fields
the verified operations consult. -/
structure SectionRec where
  id : String
  notebook_id : String
deriving DecidableEq, Repr

/-- The `CreatePageRequest` record of `NotebookContext.tsx` (`title`,
`content`, `tags` omitted: no verified operation reads them). -/
structure CreatePageRequest where
  notebook_id : String
  section_id : Option String := none
  parent_page_id : Option String := none
deriving DecidableEq, Repr

/-- The flat, id-indexed store owned by the hierarchy backend (spec §9:
arena + index pattern). -/
structure HierarchyStore where
  notebook_ids : List String
  sections : List SectionRec
  pages : List PageRec
deriving DecidableEq, Repr

/-- The id chain walked upward from `pid` through `parent_page_id` links,
`fuel`-bounded. -/
def ancestorIds (pages : List PageRec) : String → Nat → List String
  | _, 0 => []
  | pid, fuel + 1 =>
    pid ::
      (match pages.find? (fun p => p.id = pid) with
        | some p =>
          match p.parent_page_id with
          | some q => ancestorIds pages q fuel
          | none => []
        | none => [])

/-- Whether making `parentId` the parent of the page `newId` would close a
cycle: `newId` already appears on `parentId`'s ancestor chain. -/
def wouldCloseCycle (pages : List PageRec) (newId parentId : String) : Bool :=
  decide (newId ∈ ancestorIds pages parentId (pages.length + 1))

/-- The page record built by a successful `create_page`. -/
def newPageRec (req : CreatePageRequest) (newId : String) : PageRec :=
  { id := newId, notebook_id := req.notebook_id, section_id := req.section_id,
    parent_page_id := req.parent_page_id }

/-- Appending the new page to the store. -/
def insertPage (st : HierarchyStore) (req : CreatePageRequest) (newId : String) :
    HierarchyStore :=
  { st with pages := st.pages ++ [newPageRec req newId] }

/-- The parent validation of `create_page`: an absent parent id fails
`NotFound`, a parent outside `notebook_id` or one whose chain already
contains the new page fails `InvalidHierarchy`. -/
def checkParentAndInsert (st : HierarchyStore) (req : CreatePageRequest) (newId : String) :
    Except HierarchyError HierarchyStore :=
  match req.parent_page_id with
  | none => Except.ok (insertPage st req newId)
  | some pid =>
    match st.pages.find? (fun p => p.id = pid) with
    | none => Except.error HierarchyError.notFound
    | some parent =>
      if ¬ parent.notebook_id = req.notebook_id then Except.error HierarchyError.invalidHierarchy
      else if wouldCloseCycle st.pages newId pid then Except.error HierarchyError.invalidHierarchy
      else Except.ok (insertPage st req newId)

/-- Modelled from the spec: the backend `create_page` command invoked by
`createPage` in `NotebookContext.tsx` (the Rust implementation is not part of
the source tree).  Spec §4.1: `create_page(notebook_id, section_id?,
parent_page_id?, ...)` fails `InvalidHierarchy` if `section_id` or
`parent_page_id` reference an entity outside `notebook_id`, or if
`parent_page_id` would close a cycle; an unresolved id fails `NotFound`
(spec §7).  `newId` is the backend-generated page id. -/
def createPage (st : HierarchyStore) (req : CreatePageRequest) (newId : String) :
    Except HierarchyError HierarchyStore :=
  if ¬ req.notebook_id ∈ st.notebook_ids then Except.error HierarchyError.notFound
  else
    match req.section_id with
    | none => checkParentAndInsert st req newId
    | some sid =>
      match st.sections.find? (fun sec => sec.id = sid) with
      | none => Except.error HierarchyError.notFound
      | some sec =>
        if ¬ sec.notebook_id = req.notebook_id then Except.error HierarchyError.invalidHierarchy
        else checkParentAndInsert st req newId

/-- Stores whose pages arise from a sequence of successful `create_page`
calls against fixed notebooks and sections; the backend-generated page id of
each call is fresh. -/
inductive PagesBuilt : HierarchyStore → Prop where
  | base (nbs : List String) (secs : List SectionRec) :
      PagesBuilt { notebook_ids := nbs, sections := secs, pages := [] }
  | step {st st' : HierarchyStore} (req : CreatePageRequest) (newId : String) :
      PagesBuilt st → newId ∉ st.pages.map (·.id) →
      createPage st req newId = Except.ok st' → PagesBuilt st'

/-- Creation order orients the parent relation: every page's parent appears
strictly earlier in the store and lies in the same notebook. -/
def WellParented (pages : List PageRec) : Prop :=
  ∀ i : Fin pages.length, ∀ q, (pages.get i).parent_page_id = some q →
    ∃ j : Fin pages.length, j.val < i.val ∧ (pages.get j).id = q ∧
      (pages.get j).notebook_id = (pages.get i).notebook_id

/-- The root reached from `p` by following `parent_page_id` upward,
`fuel`-bounded. -/
def parentChainRoot (pages : List PageRec) : PageRec → Nat → Option PageRec
  | p, fuel =>
    match p.parent_page_id with
    | none => some p
    | some q =>
      match fuel with
      | 0 => none
      | fuel + 1 =>
        match pages.find? (fun r => r.id = q) with
        | none => none
        | some r => parentChainRoot pages r fuel

/-- The (proper) ancestor ids of a page: the chain walked up from its
parent. -/
def properAncestorIds (pages : List PageRec) (p : PageRec) : List String :=
  match p.parent_page_id with
  | none => []
  | some q => ancestorIds pages q (pages.length + 1)

/-- A successful `create_page` passed the parent validation. -/
theorem createPage_ok_then_parent {st : HierarchyStore} {req : CreatePageRequest}
    {newId : String} {st' : HierarchyStore}
    (h : createPage st req newId = Except.ok st') :
    checkParentAndInsert st req newId = Except.ok st' := by
  unfold createPage at h
  split at h
  · simp at h
  · split at h
    · exact h
    · split at h
      · simp at h
      · split at h
        · simp at h
        · exact h

/-- Inversion of a successful parent validation: the store grew by exactly
the new page, and a requested parent resolves within the same notebook. -/
theorem checkParent_ok_inv {st : HierarchyStore} {req : CreatePageRequest}
    {newId : String} {st' : HierarchyStore}
    (h : checkParentAndInsert st req newId = Except.ok st') :
    st' = insertPage st req newId ∧
    ∀ pid, req.parent_page_id = some pid →
      ∃ parent, st.pages.find? (fun p => p.id = pid) = some parent ∧
        parent.notebook_id = req.notebook_id := by
  unfold checkParentAndInsert at h
  split at h
  next hnone =>
    refine ⟨by injection h with h2; exact h2.symm, ?_⟩
    intro pid hp
    rw [hnone] at hp
    cases hp
  next pid hpid =>
    split at h
    next hfind => simp at h
    next parent hfind =>
      split at h
      · simp at h
      next hnb =>
        split at h
        · simp at h
        · refine ⟨by injection h with h2; exact h2.symm, ?_⟩
          intro pid2 hp2
          rw [hpid] at hp2
          injection hp2 with hp2
          subst hp2
          exact ⟨parent, hfind, not_not.1 hnb⟩

/-- In a page store with distinct ids, `find?` by a member's id returns that
member. -/
theorem find?_id_of_mem (l : List PageRec) (p : PageRec)
    (hnd : (l.map (·.id)).Nodup) (hp : p ∈ l) :
    l.find? (fun r => r.id = p.id) = some p := by
  induction l with
  | nil => cases hp
  | cons a t ih =>
    rw [List.map_cons, List.nodup_cons] at hnd
    rcases List.mem_cons.1 hp with rfl | hp'
    · rw [List.find?_cons_of_pos _ (by simp)]
    · have hane : ¬ a.id = p.id := fun h =>
        hnd.1 (h ▸ List.mem_map_of_mem (·.id) hp')
      rw [List.find?_cons_of_neg _ (by simp [hane])]
      exact ih hnd.2 hp'

/-- Every built store has distinct page ids and a creation-ordered parent
relation. -/
theorem pagesBuilt_invariant {st : HierarchyStore} (h : PagesBuilt st) :
    (st.pages.map (·.id)).Nodup ∧ WellParented st.pages := by
  induction h with
  | base nbs secs =>
    constructor
    · simp
    · intro i
      exact absurd i.isLt (by simp)
  | step req newId hb hfresh hok ih =>
    obtain ⟨hnd, hwp⟩ := ih
    obtain ⟨hst', hpar⟩ := checkParent_ok_inv (createPage_ok_then_parent hok)
    subst hst'
    rename_i st
    constructor
    · show ((st.pages ++ [newPageRec req newId]).map (·.id)).Nodup
      rw [List.map_append, List.nodup_append]
      refine ⟨hnd, by simp, ?_⟩
      intro x hx hx'
      simp [newPageRec] at hx'
      exact hfresh (hx' ▸ hx)
    · show WellParented (st.pages ++ [newPageRec req newId])
      intro i q hq
      by_cases hi : i.val < st.pages.length
      · have hgeti : (st.pages ++ [newPageRec req newId]).get i = st.pages.get ⟨i.val, hi⟩ :=
          List.get_append i.val hi
        obtain ⟨j, hjlt, hjid, hjnb⟩ := hwp ⟨i.val, hi⟩ q (by rw [← hgeti]; exact hq)
        have hj' : j.val < (st.pages ++ [newPageRec req newId]).length := by
          rw [List.length_append]
          have := j.isLt
          omega
        have hgetj : (st.pages ++ [newPageRec req newId]).get ⟨j.val, hj'⟩ = st.pages.get j :=
          List.get_append j.val j.isLt
        exact ⟨⟨j.val, hj'⟩, hjlt, by rw [hgetj]; exact hjid,
          by rw [hgetj, hgeti]; exact hjnb⟩
      · have hlen : (st.pages ++ [newPageRec req newId]).length = st.pages.length + 1 := by
          simp
        have hieq : i.val = st.pages.length := by
          have h2 := i.isLt
          omega
        have hgeti : (st.pages ++ [newPageRec req newId]).get i = newPageRec req newId := by
          rw [List.get_eq_getElem, List.getElem_append_right (by omega)]
          simp [hieq]
        rw [hgeti] at hq
        obtain ⟨parent, hfind, hnb⟩ := hpar q hq
        have hpmem : parent ∈ st.pages := List.mem_of_find?_eq_some hfind
        obtain ⟨j, hj⟩ := List.mem_iff_get.1 hpmem
        have hj' : j.val < (st.pages ++ [newPageRec req newId]).length := by
          rw [List.length_append]
          have := j.isLt
          omega
        have hgetj : (st.pages ++ [newPageRec req newId]).get ⟨j.val, hj'⟩ = st.pages.get j :=
          List.get_append j.val j.isLt
        have hpid : parent.id = q := by
          have := List.find?_some hfind
          simpa using this
        refine ⟨⟨j.val, hj'⟩, ?_, ?_, ?_⟩
        · show j.val < i.val
          have := j.isLt
          omega
        · rw [hgetj, hj]
          exact hpid
        · rw [hgetj, hj, hgeti]
          exact hnb

/-- Every id on a fuel-bounded ancestor walk from the page at index `j` is
the id of a page at index ≤ `j`. -/
theorem ancestorIds_index (pages : List PageRec) (hnd : (pages.map (·.id)).Nodup)
    (hwp : WellParented pages) :
    ∀ fuel : Nat, ∀ j : Fin pages.length, ∀ x,
      x ∈ ancestorIds pages (pages.get j).id fuel →
      ∃ k : Fin pages.length, k.val ≤ j.val ∧ x = (pages.get k).id := by
  intro fuel
  induction fuel with
  | zero =>
    intro j x hx
    cases hx
  | succ fuel ih =>
    intro j x hx
    simp only [ancestorIds,
      find?_id_of_mem pages (pages.get j) hnd (List.get_mem pages j.val j.isLt)] at hx
    rcases List.mem_cons.1 hx with rfl | hx'
    · exact ⟨j, Nat.le_refl _, rfl⟩
    · rcases hpp : (pages.get j).parent_page_id with _ | q
      · simp only [hpp] at hx'
        cases hx'
      · simp only [hpp] at hx'
        obtain ⟨j', hj'lt, hj'id, -⟩ := hwp j q hpp
        rw [← hj'id] at hx'
        obtain ⟨k, hk, hkx⟩ := ih j' x hx'
        exact ⟨k, by omega, hkx⟩

/-- With enough fuel, the chain from the page at index `i` reaches a
parentless root of the same notebook. -/
theorem parentChainRoot_exists (pages : List PageRec) (hnd : (pages.map (·.id)).Nodup)
    (hwp : WellParented pages) :
    ∀ fuel : Nat, ∀ i : Fin pages.length, i.val < fuel →
      ∃ r, parentChainRoot pages (pages.get i) fuel = some r ∧
        r.parent_page_id = none ∧ r.notebook_id = (pages.get i).notebook_id := by
  intro fuel
  induction fuel with
  | zero =>
    intro i hi
    exact absurd hi (Nat.not_lt_zero _)
  | succ fuel ih =>
    intro i hi
    rcases hpp : (pages.get i).parent_page_id with _ | q
    · refine ⟨pages.get i, ?_, hpp, rfl⟩
      rw [parentChainRoot]
      simp only [hpp]
    · obtain ⟨j, hjlt, hjid, hjnb⟩ := hwp i q hpp
      have hfind : pages.find? (fun r => r.id = q) = some (pages.get j) := by
        rw [← hjid]
        exact find?_id_of_mem pages (pages.get j) hnd (List.get_mem pages j.val j.isLt)
      obtain ⟨r, hr, hrn, hrnb⟩ := ih j (by omega)
      refine ⟨r, ?_, hrn, by rw [hrnb, hjnb]⟩
      rw [parentChainRoot]
      simp only [hpp, hfind]
      exact hr

/-- Claim C8: for every sequence of page creations, `create_page` fails with
`InvalidHierarchy` whenever the requested parent would close a cycle (given
the earlier notebook and optional section checks pass), and consequently the
parent relation of every built store is a forest: no page's id appears on
its own ancestor chain, and every page's chain terminates at a parentless
page of the same notebook. -/
theorem createPage_forest (st : HierarchyStore) (h : PagesBuilt st) :
    (∀ (req : CreatePageRequest) (newId pid : String) (parent : PageRec),
      req.parent_page_id = some pid →
      req.notebook_id ∈ st.notebook_ids →
      (req.section_id = none ∨
        ∃ sid sc, req.section_id = some sid ∧
          st.sections.find? (fun c => c.id = sid) = some sc ∧
          sc.notebook_id = req.notebook_id) →
      st.pages.find? (fun p => p.id = pid) = some parent →
      parent.notebook_id = req.notebook_id →
      wouldCloseCycle st.pages newId pid = true →
      createPage st req newId = Except.error HierarchyError.invalidHierarchy) ∧
    (∀ p ∈ st.pages, p.id ∉ properAncestorIds st.pages p) ∧
    (∀ p ∈ st.pages, ∃ r, parentChainRoot st.pages p st.pages.length = some r ∧
      r.parent_page_id = none ∧ r.notebook_id = p.notebook_id) := by
  obtain ⟨hnd, hwp⟩ := pagesBuilt_invariant h
  refine ⟨?_, ?_, ?_⟩
  · intro req newId pid parent hpid hnb hsec hfind hpnb hcyc
    have hcp : checkParentAndInsert st req newId =
        Except.error HierarchyError.invalidHierarchy := by
      unfold checkParentAndInsert
      simp only [hpid, hfind]
      rw [if_neg (fun hc => hc hpnb), if_pos hcyc]
    unfold createPage
    rw [if_neg (by simpa using hnb)]
    rcases hsec with hnone | ⟨sid, sc, hsid, hsfind, hsnb⟩
    · simp only [hnone]
      exact hcp
    · simp only [hsid, hsfind]
      rw [if_neg (fun hc => hc hsnb)]
      exact hcp
  · intro p hp
    obtain ⟨i, hi⟩ := List.mem_iff_get.1 hp
    subst hi
    intro hmem
    unfold properAncestorIds at hmem
    rcases hpp : (st.pages.get i).parent_page_id with _ | q
    · simp only [hpp] at hmem
      cases hmem
    · simp only [hpp] at hmem
      obtain ⟨j, hjlt, hjid, -⟩ := hwp i q hpp
      rw [← hjid] at hmem
      obtain ⟨k, hk, hkx⟩ := ancestorIds_index st.pages hnd hwp _ j _ hmem
      have hik' : i.val = k.val := by
        have h1 : (st.pages.map (·.id)).get ⟨i.val, by simpa using i.isLt⟩ =
            (st.pages.map (·.id)).get ⟨k.val, by simpa using k.isLt⟩ := by
          rw [List.get_map, List.get_map]
          exact hkx
        have h2 := (hnd.get_inj_iff).1 h1
        simpa using congrArg Fin.val h2
      omega
  · intro p hp
    obtain ⟨i, hi⟩ := List.mem_iff_get.1 hp
    subst hi
    exact parentChainRoot_exists st.pages hnd hwp st.pages.length i i.isLt

/-- The concrete store after creating only `pg1`. -/
def storeW1 : HierarchyStore :=
  { notebook_ids := ["n1"], sections := [],
    pages := [{ id := "pg1", notebook_id := "n1" }] }

/-- A concrete built store: notebook `n1` with page `pg1` and its sub-page
`pg2`. -/
def storeW : HierarchyStore :=
  { notebook_ids := ["n1"], sections := [],
    pages := [{ id := "pg1", notebook_id := "n1" },
              { id := "pg2", notebook_id := "n1", parent_page_id := some "pg1" }] }

/-- Witness for C8: in the concrete built store, `pg2` is not its own
ancestor and its chain roots at a parentless page of notebook `n1`. -/
theorem createPage_forest_witness :
    ({ id := "pg2", notebook_id := "n1", parent_page_id := some "pg1" } : PageRec).id ∉
      properAncestorIds storeW.pages
        { id := "pg2", notebook_id := "n1", parent_page_id := some "pg1" } ∧
    ∃ r, parentChainRoot storeW.pages
        { id := "pg2", notebook_id := "n1", parent_page_id := some "pg1" }
        storeW.pages.length = some r ∧
      r.parent_page_id = none ∧ r.notebook_id = "n1" := by
  have h1 : PagesBuilt storeW1 :=
    PagesBuilt.step { notebook_id := "n1" } "pg1" (PagesBuilt.base ["n1"] [])
      (by decide) rfl
  have hb : PagesBuilt storeW :=
    PagesBuilt.step { notebook_id := "n1", parent_page_id := some "pg1" } "pg2" h1
      (by decide) rfl
  exact ⟨(createPage_forest storeW hb).2.1 _ (by decide),
    (createPage_forest storeW hb).2.2 _ (by decide)⟩

end Devise
